import Mathlib

/-!
Verification of the revision-aware event store and surprise scoring engine.

Shallow embedding of the core of the scraper repository:

* `event_store.py` — `Event`, `EventStore.add_event`, `EventStore.fetch_events`.
  The SQLite table is modelled as a list of rows; `INSERT OR REPLACE` under the
  primary key `(series_id, release_date, vintage)` removes any row with the
  same key and appends the new one; `SELECT ... ORDER BY release_date ASC,
  vintage ASC` is modelled as a filter followed by a sort under the
  lexicographic order on the two text columns (SQLite compares TEXT columns
  byte-wise, which on ASCII data coincides with the character-wise
  lexicographic order on strings).  ISO-8601 UTC timestamps compare the same
  as the instants they denote, so `release_time_utc` is modelled as an integer
  (epoch seconds); `datetime.now` is passed in explicitly as `now`.
* `scoring.py` — `surprise`, `z_score`, `decay_weight`, `point_from_z`,
  `category_score`.  Python floats are modelled as rationals (every float is a
  rational); the transcendental steps (`**` with fractional exponent, `sqrt`,
  `tanh`) are modelled over the reals.  `surprise` can raise
  `ZeroDivisionError` (relative mode, consensus `0.0`), so it returns
  `Except`.
* `bridge_scraper_to_backend.py` — `ScoreConverter.convert_score`.  Python's
  `int()` truncates toward zero, modelled by `pyInt`.
-/

/-- One row of the `events` table / the `Event` dataclass of `event_store.py`.
`release_time_utc` is the release instant in epoch seconds. -/
structure Event where
  series_id : String
  release_date : String
  vintage : String
  actual : ℚ
  consensus : Option ℚ
  previous : Option ℚ
  impact : String
  release_time_utc : ℤ
  provider : String
deriving DecidableEq, Repr

/-- The primary key `(series_id, release_date, vintage)` of a row. -/
def keyOf (e : Event) : String × String × String :=
  (e.series_id, e.release_date, e.vintage)

/-- All rows of the table carrying a given primary key. -/
def rowsWithKey (db : List Event) (k : String × String × String) : List Event :=
  db.filter (fun x => decide (keyOf x = k))

/-- Semantics of `INSERT OR REPLACE` under the primary key: the conflicting
row (if any) is deleted and the new row inserted. -/
def upsert (db : List Event) (e : Event) : List Event :=
  db.filter (fun x => decide (keyOf x ≠ keyOf e)) ++ [e]

/-- The error raised by `add_event` for a future release
(`ValueError("release_time_utc is in the future")`, the spec's
`FutureReleaseError`). -/
inductive StoreError where
  | futureRelease
deriving DecidableEq, Repr

/-- The method `EventStore.add_event`: reject an event whose release time is
after the store's current time, otherwise insert-or-replace its row. -/
def add_event (now : ℤ) (db : List Event) (e : Event) : Except StoreError (List Event) :=
  if now < e.release_time_utc then Except.error StoreError.futureRelease
  else Except.ok (upsert db e)

/-- The row order produced by `ORDER BY release_date ASC, vintage ASC`:
lexicographic on the two text columns. -/
def fetchLE (a b : Event) : Prop :=
  a.release_date.data < b.release_date.data ∨
    (a.release_date.data = b.release_date.data ∧ a.vintage.data ≤ b.vintage.data)

instance : DecidableRel fetchLE := fun a b => by
  unfold fetchLE; infer_instance

instance : IsTotal Event fetchLE where
  total a b := by
    unfold fetchLE
    rcases lt_trichotomy a.release_date.data b.release_date.data with h | h | h
    · exact Or.inl (Or.inl h)
    · rcases le_total a.vintage.data b.vintage.data with hv | hv
      · exact Or.inl (Or.inr ⟨h, hv⟩)
      · exact Or.inr (Or.inr ⟨h.symm, hv⟩)
    · exact Or.inr (Or.inl h)

instance : IsTrans Event fetchLE where
  trans a b c hab hbc := by
    unfold fetchLE at *
    rcases hab with h1 | ⟨h1, hv1⟩
    · rcases hbc with h2 | ⟨h2, _⟩
      · exact Or.inl (h1.trans h2)
      · exact Or.inl (h2 ▸ h1)
    · rcases hbc with h2 | ⟨h2, hv2⟩
      · exact Or.inl (h1 ▸ h2)
      · exact Or.inr ⟨h1.trans h2, hv1.trans hv2⟩

/-- The method `EventStore.fetch_events`: the rows of the series released no
later than `as_of`, in `(release_date, vintage)` lexicographic text order. -/
def fetch_events (db : List Event) (sid : String) (as_of : ℤ) : List Event :=
  List.insertionSort fetchLE
    (db.filter (fun x => decide (x.series_id = sid ∧ x.release_time_utc ≤ as_of)))

/-- Python's `int()` applied to a number: truncation toward zero. -/
def pyInt (q : ℚ) : ℤ :=
  if q < 0 then -⌊-q⌋ else ⌊q⌋

/-- The method `ScoreConverter.convert_score`: clamp to `[-2, 2]`, scale by
12, truncate with `int()`, clamp to `[-24, 24]`. -/
def convert_score (x : ℚ) : ℤ :=
  max (-24) (min 24 (pyInt (max (-2) (min 2 x) * 12)))

/-- The Scale Converter as the spec words it: `round(clamp(x, −2, 2) × 12)`,
re-clamped to `[−24, 24]` (for comparison with `convert_score`). -/
def convert_score_spec (x : ℚ) : ℤ :=
  max (-24) (min 24 (round (max (-2) (min 2 x) * 12)))

/-- Python exceptions that the scoring functions can raise. -/
inductive PyError where
  | zeroDivision
deriving DecidableEq, Repr

/-- The function `surprise(event, direction)` of `scoring.py`.  A missing
consensus yields `0.0` before any mode check; in relative mode the division
`actual / consensus` raises `ZeroDivisionError` when the consensus is zero;
any direction other than `"relative"` takes the absolute branch. -/
def surprise (ev : Event) (direction : String) : Except PyError ℚ :=
  match ev.consensus with
  | none => Except.ok 0
  | some c =>
    if direction = "relative" then
      if c = 0 then Except.error PyError.zeroDivision
      else Except.ok (ev.actual / c - 1)
    else Except.ok (ev.actual - c)

/-- The absolute-mode surprise as a total function: `actual − consensus`, or
`0` when the consensus is missing. -/
def surpriseAbs (ev : Event) : ℚ :=
  match ev.consensus with
  | none => 0
  | some c => ev.actual - c

/-- The character of a decimal digit. -/
def digitChar (d : ℕ) : Char :=
  if d = 0 then '0' else if d = 1 then '1' else if d = 2 then '2'
  else if d = 3 then '3' else if d = 4 then '4' else if d = 5 then '5'
  else if d = 6 then '6' else if d = 7 then '7' else if d = 8 then '8' else '9'

/-- Decimal digit characters of a natural number, most significant first. -/
def natRepr (n : ℕ) : List Char :=
  if n = 0 then ['0'] else ((Nat.digits 10 n).map digitChar).reverse

/-- Python's `str()` of a finite float: an optional minus sign, the integer
part's digits, a decimal point, fraction digits (possibly an exponent part of
sign, digits and the letter `e` — omitted here, it adds no new character
kind).  The float is modelled as the rational it denotes and the fraction
rendered to 17 places (a double has at most 17 significant decimal digits).
The exact digit sequence does not matter for the claims, only the alphabet of
characters the representation can contain; the string is given as its
character list. -/
def floatStr (q : ℚ) : List Char :=
  (if q < 0 then ['-'] else []) ++ natRepr ⌊|q|⌋.toNat
    ++ ['.'] ++ natRepr (⌊(|q| - ⌊|q|⌋) * 10 ^ 17⌋.toNat)

/-- Impact multipliers (`IMPACT_WEIGHT`), looked up with `dict.get` and
default `1.0`. -/
def impactWeight (impact : String) : ℚ :=
  if impact = "high" then 3 else if impact = "mid" then 3/2
  else if impact = "low" then 3/4 else 1

/-- Half-life lookup table (`HALF_LIFE`), looked up with `dict.get` and
default `30` days. -/
def halfLife (freq : String) : ℕ :=
  if freq = "w" then 14 else if freq = "m" then 45
  else if freq = "q" then 90 else if freq = "policy" then 90 else 30

/-- Whole days elapsed between `now` and the release instant:
`(now − release_time).days`, the Python `timedelta.days`, which floors toward
minus infinity. -/
def daysElapsed (now rt : ℤ) : ℤ := (now - rt).fdiv 86400

/-- The function `decay_weight(release_time, freq, impact)` of `scoring.py`:
`0.5 ** (days / half_life) * impact_multiplier`. -/
noncomputable def decay_weight (now : ℤ) (release_time : ℤ) (freq impact : String) : ℝ :=
  ((1 : ℝ) / 2) ^ ((daysElapsed now release_time : ℝ) / (halfLife freq : ℝ)) *
    (impactWeight impact : ℝ)

/-- Sample mean, `statistics.mean`. -/
noncomputable def listMean (xs : List ℝ) : ℝ := xs.sum / xs.length

/-- Population standard deviation, `statistics.pstdev`. -/
noncomputable def pstdev (xs : List ℝ) : ℝ :=
  Real.sqrt ((xs.map (fun x => (x - listMean xs) ^ 2)).sum / xs.length)

/-- The function `z_score(series_id, surprises)` of `scoring.py`: standardize
the last surprise against the mean and population standard deviation of the
whole list; `sigma or 1.0` replaces a zero standard deviation by `1.0`; an
empty list yields `0.0`. -/
noncomputable def z_score (sid : String) (surprises : List ℚ) : ℝ :=
  if surprises = [] then 0
  else
    let xs : List ℝ := surprises.map (fun q => (q : ℝ))
    let mu := listMean xs
    let sigma := pstdev xs
    (((surprises.getLast?.getD 0 : ℚ) : ℝ) - mu) / (if sigma = 0 then 1 else sigma)

/-- The function `point_from_z` of `scoring.py`: dead-zone below `0.25`,
otherwise `2·tanh(z/1.5)` clamped to `[−2, 2]`. -/
noncomputable def point_from_z (z : ℝ) : ℝ :=
  if |z| < 1/4 then 0 else max (-2) (min 2 (2 * Real.tanh (z / (3/2))))

/-- Running state of the `category_score` loop: the surprise history and the
accumulated per-event weighted contributions. -/
structure ScoreState where
  surprises : List ℚ
  weights : List ℝ

/-- One iteration of the `category_score` loop: choose the surprise mode by
testing whether `'%'` occurs in `str(ev.actual)`, compute the causal z-score
over the history including this event, weight it by the decay weight. -/
noncomputable def categoryStep (now : ℤ) (st : ScoreState) (p : Event × String) :
    Except PyError ScoreState :=
  match (if '%' ∈ floatStr p.1.actual then surprise p.1 "relative"
         else surprise p.1 "absolute") with
  | Except.error e => Except.error e
  | Except.ok s =>
      Except.ok ⟨st.surprises ++ [s],
        st.weights ++ [z_score p.1.series_id (st.surprises ++ [s]) *
          decay_weight now p.1.release_time_utc p.2 p.1.impact]⟩

/-- The function `category_score` of `scoring.py` over a list of
`(event, frequency_class)` pairs: the loop, then the mean of the weighted
contributions pushed through `point_from_z`; an empty list yields `0.0`. -/
noncomputable def category_score (now : ℤ) (events : List (Event × String)) :
    Except PyError ℝ :=
  match events.foldlM (categoryStep now) ⟨[], []⟩ with
  | Except.error e => Except.error e
  | Except.ok st =>
      if st.weights = [] then Except.ok 0
      else Except.ok (point_from_z (st.weights.sum / st.weights.length))

/-- One iteration of the loop with the surprise taken in absolute mode (the
only reachable branch). -/
noncomputable def categoryStepAbs (now : ℤ) (st : ScoreState) (p : Event × String) :
    ScoreState :=
  ⟨st.surprises ++ [surpriseAbs p.1],
    st.weights ++ [z_score p.1.series_id (st.surprises ++ [surpriseAbs p.1]) *
      decay_weight now p.1.release_time_utc p.2 p.1.impact]⟩

/-- The aggregator with every surprise computed in absolute mode, as a total
function. -/
noncomputable def category_score_abs (now : ℤ) (events : List (Event × String)) : ℝ :=
  let st := events.foldl (categoryStepAbs now) ⟨[], []⟩
  if st.weights = [] then 0 else point_from_z (st.weights.sum / st.weights.length)

/-- Concrete flash-vintage CPI row used in counterexamples and witnesses. -/
def evFlash : Event :=
  ⟨"cpi", "2024-01-01", "flash", 1, some 2, none, "high", 10, "src"⟩

/-- Concrete final-vintage CPI row: same series and release date as `evFlash`,
released later (a revision of it). -/
def evFinal : Event :=
  ⟨"cpi", "2024-01-01", "final", 2, some 2, none, "high", 50, "src"⟩

/-- Concrete row whose consensus is present and equal to zero. -/
def evZeroConsensus : Event :=
  ⟨"cpi", "2024-01-01", "final", 1, some 0, none, "high", 10, "src"⟩

/-- Concrete row with no consensus value. -/
def evNoConsensus : Event :=
  ⟨"cpi", "2024-01-01", "prelim", 1, none, none, "high", 10, "src"⟩

theorem pyInt_eq_cases (q : ℚ) : pyInt q = if q < 0 then ⌈q⌉ else ⌊q⌋ := by
  unfold pyInt
  split_ifs with h
  · rw [Int.floor_neg, neg_neg]
  · rfl

theorem pyInt_mono {x y : ℚ} (h : x ≤ y) : pyInt x ≤ pyInt y := by
  rw [pyInt_eq_cases, pyInt_eq_cases]
  split_ifs with hx hy hy2
  · exact Int.ceil_le_ceil h
  · calc ⌈x⌉ ≤ ⌈(0 : ℚ)⌉ := Int.ceil_le_ceil hx.le
      _ = 0 := by simp
      _ ≤ ⌊y⌋ := Int.floor_nonneg.mpr (not_lt.mp hy)
  · exact absurd (h.trans_lt hy2) hx
  · exact Int.floor_le_floor h

theorem le_pyInt {n : ℤ} {q : ℚ} (h : (n : ℚ) ≤ q) : n ≤ pyInt q := by
  rw [pyInt_eq_cases]
  split_ifs with hq
  · calc n = ⌈(n : ℚ)⌉ := (Int.ceil_intCast n).symm
      _ ≤ ⌈q⌉ := Int.ceil_le_ceil h
  · exact Int.le_floor.mpr h

theorem pyInt_le {n : ℤ} {q : ℚ} (h : q ≤ (n : ℚ)) : pyInt q ≤ n := by
  rw [pyInt_eq_cases]
  split_ifs with hq
  · exact Int.ceil_le.mpr h
  · calc ⌊q⌋ ≤ ⌊(n : ℚ)⌋ := Int.floor_le_floor h
      _ = n := Int.floor_intCast n

theorem pyInt_floor_bounds (q : ℚ) : ⌊q⌋ ≤ pyInt q ∧ pyInt q ≤ ⌊q⌋ + 1 := by
  rw [pyInt_eq_cases]
  split_ifs with hq
  · exact ⟨Int.floor_le_ceil q, Int.ceil_le_floor_add_one q⟩
  · exact ⟨le_refl _, by omega⟩

theorem round_floor_bounds (q : ℚ) : ⌊q⌋ ≤ round q ∧ round q ≤ ⌊q⌋ + 1 := by
  rw [round_eq]
  constructor
  · exact Int.floor_le_floor (by linarith)
  · calc ⌊q + 1/2⌋ ≤ ⌊q + 1⌋ := Int.floor_le_floor (by linarith)
      _ = ⌊q⌋ + 1 := by exact_mod_cast Int.floor_add_int q 1

theorem clamp2_bounds (x : ℚ) : -2 ≤ max (-2) (min 2 x) ∧ max (-2) (min 2 x) ≤ 2 :=
  ⟨le_max_left _ _, max_le (by norm_num) (min_le_left _ _)⟩

/-- C5: the claim says the Scale Converter computes `round(clamp(x, −2, 2) ×
12)` re-clamped to `[−24, 24]` and sends the worked-example squashed score
`1.986` to `24`; in fact the code truncates with Python's `int()`, so `1.986`
converts to `23` while the spec's rounding formula gives `24`. -/
theorem convert_score_round_cex :
    convert_score (993/500) = 23 ∧ convert_score_spec (993/500) = 24 := by
  constructor
  · norm_num [convert_score, pyInt, max_def, min_def]
  · norm_num [convert_score_spec, round_eq, max_def, min_def]

/-- C5 (amended): for every rational input `x` the Scale Converter returns
`clamp(x, −2, 2) × 12` truncated toward zero (Python `int()`, not `round`),
and the defensive re-clamp to `[−24, 24]` never changes the value; the result
differs from the spec's rounding formula by at most 1, and the worked-example
squashed score `1.986` converts to `23`, not `24`. -/
theorem convert_score_truncates :
    (∀ x : ℚ, convert_score x = pyInt (max (-2) (min 2 x) * 12) ∧
      |convert_score x - convert_score_spec x| ≤ 1) ∧
    convert_score (993/500) = 23 := by
  constructor
  · intro x
    have hc := clamp2_bounds x
    have h1 : (-24 : ℤ) ≤ pyInt (max (-2) (min 2 x) * 12) :=
      le_pyInt (by push_cast; linarith [hc.1])
    have h2 : pyInt (max (-2) (min 2 x) * 12) ≤ (24 : ℤ) :=
      pyInt_le (by push_cast; linarith [hc.2])
    have hcs : convert_score x = pyInt (max (-2) (min 2 x) * 12) := by
      unfold convert_score
      rw [min_eq_right h2, max_eq_right h1]
    refine ⟨hcs, ?_⟩
    have hpb := pyInt_floor_bounds (max (-2) (min 2 x) * 12)
    have hrb := round_floor_bounds (max (-2) (min 2 x) * 12)
    rw [hcs]
    unfold convert_score_spec
    rw [abs_le]
    omega
  · norm_num [convert_score, pyInt, max_def, min_def]

/-- C6: the Scale Converter is exact at its documented fixed points
(`convert(−2) = −24`, `convert(0) = 0`, `convert(2) = 24`) and is monotonic
non-decreasing over all inputs. -/
theorem convert_score_fixed_points_mono :
    convert_score (-2) = -24 ∧ convert_score 0 = 0 ∧ convert_score 2 = 24 ∧
    ∀ x y : ℚ, x ≤ y → convert_score x ≤ convert_score y := by
  refine ⟨?_, ?_, ?_, ?_⟩
  · norm_num [convert_score, pyInt, max_def, min_def]
  · norm_num [convert_score, pyInt, max_def, min_def]
  · norm_num [convert_score, pyInt, max_def, min_def]
  · intro x y h
    unfold convert_score
    have h1 : max (-2) (min 2 x) * 12 ≤ max (-2) (min 2 y) * 12 := by
      have := max_le_max (le_refl (-2 : ℚ)) (min_le_min (le_refl 2) h)
      linarith
    exact max_le_max (le_refl _) (min_le_min (le_refl _) (pyInt_mono h1))

/-- Witness for C6: the monotonicity clause applied at the concrete pair
`(1, 2)`. -/
theorem convert_score_fixed_points_mono_witness : convert_score 1 ≤ convert_score 2 :=
  convert_score_fixed_points_mono.2.2.2 1 2 (by norm_num)

theorem rowsWithKey_upsert_same (db : List Event) (e : Event) :
    rowsWithKey (upsert db e) (keyOf e) = [e] := by
  unfold rowsWithKey upsert
  rw [List.filter_append]
  have h1 : List.filter (fun x => decide (keyOf x = keyOf e))
      (List.filter (fun x => decide (keyOf x ≠ keyOf e)) db) = [] := by
    rw [List.filter_eq_nil_iff]
    intro a ha
    rw [List.mem_filter] at ha
    simp only [decide_eq_true_eq] at ha ⊢
    exact ha.2
  rw [h1]
  simp

theorem rowsWithKey_upsert_other (db : List Event) (e : Event)
    {k : String × String × String} (hk : k ≠ keyOf e) :
    rowsWithKey (upsert db e) k = rowsWithKey db k := by
  unfold rowsWithKey upsert
  rw [List.filter_append]
  have h2 : List.filter (fun x => decide (keyOf x = k)) [e] = [] := by
    have hd : decide (keyOf e = k) = false := decide_eq_false fun h => hk h.symm
    simp [List.filter, hd]
  rw [h2, List.append_nil, List.filter_filter]
  apply List.filter_congr
  intro x _
  by_cases hx : keyOf x = k
  · have hne : keyOf x ≠ keyOf e := fun h => hk (hx ▸ h)
    simp [hx, hne, hk]
  · simp [hx]

theorem upsert_idem (db : List Event) (e : Event) :
    upsert (upsert db e) e = upsert db e := by
  unfold upsert
  rw [List.filter_append, List.filter_filter]
  have he : List.filter (fun x => decide (keyOf x ≠ keyOf e)) [e] = [] := by
    simp [List.filter]
  rw [he, List.append_nil]
  congr 1
  exact List.filter_congr fun x _ => Bool.and_self _

theorem upsert_keys_nodup (db : List Event) (e : Event)
    (h : (db.map keyOf).Nodup) : ((upsert db e).map keyOf).Nodup := by
  unfold upsert
  rw [List.map_append, List.nodup_append]
  refine ⟨((List.filter_sublist db).map keyOf).nodup h, List.nodup_singleton _, ?_⟩
  intro a ha hb
  rw [List.mem_map] at ha
  obtain ⟨x, hx, rfl⟩ := ha
  rw [List.mem_filter] at hx
  simp only [decide_eq_true_eq] at hx
  simp only [List.map_cons, List.map_nil, List.mem_singleton] at hb
  exact hx.2 hb

theorem mem_fetch_events {db : List Event} {sid : String} {t : ℤ} {x : Event} :
    x ∈ fetch_events db sid t ↔ x ∈ db ∧ x.series_id = sid ∧ x.release_time_utc ≤ t := by
  unfold fetch_events
  rw [(List.perm_insertionSort fetchLE _).mem_iff, List.mem_filter]
  simp only [decide_eq_true_eq]

theorem add_event_ok {now : ℤ} {db : List Event} {e : Event}
    (h : e.release_time_utc ≤ now) : add_event now db e = Except.ok (upsert db e) := by
  unfold add_event
  rw [if_neg (not_lt.mpr h)]

/-- C1: adding an event whose release timestamp is strictly in the future
fails with the future-release error and produces no new store state; adding a
non-future event succeeds and inserts-or-replaces exactly the row identified
by the `(series, release_date, vintage)` triple, leaving every other key's
rows unchanged. -/
theorem add_event_future_rejected :
    ∀ (now : ℤ) (db : List Event) (e : Event),
      (now < e.release_time_utc →
        add_event now db e = Except.error StoreError.futureRelease) ∧
      (e.release_time_utc ≤ now →
        ∃ db2, add_event now db e = Except.ok db2 ∧
          rowsWithKey db2 (keyOf e) = [e] ∧
          ∀ k, k ≠ keyOf e → rowsWithKey db2 k = rowsWithKey db k) := by
  intro now db e
  constructor
  · intro h
    unfold add_event
    rw [if_pos h]
  · intro h
    exact ⟨upsert db e, add_event_ok h, rowsWithKey_upsert_same db e,
      fun k hk => rowsWithKey_upsert_other db e hk⟩

/-- Witness for C1: with store time 0, adding `evFlash` (release time 10, in
the future) fails; with store time 100 it succeeds and its key holds exactly
that row. -/
theorem add_event_future_rejected_witness :
    add_event 0 [] evFlash = Except.error StoreError.futureRelease ∧
    ∃ db2, add_event 100 [] evFlash = Except.ok db2 ∧
      rowsWithKey db2 (keyOf evFlash) = [evFlash] ∧
      ∀ k, k ≠ keyOf evFlash → rowsWithKey db2 k = rowsWithKey [] k :=
  ⟨(add_event_future_rejected 0 [] evFlash).1 (by decide),
    (add_event_future_rejected 100 [] evFlash).2 (by decide)⟩

/-- C2: a successful `add` replaces exactly the row whose
`(series, release_date, vintage)` triple matches — it never touches a row
with a different triple, never introduces a duplicate key, and re-adding the
identical event returns the identical store state (so every subsequent fetch
is unchanged). -/
theorem add_event_upsert_idempotent :
    ∀ (now : ℤ) (db : List Event) (e : Event), e.release_time_utc ≤ now →
      ∃ db2, add_event now db e = Except.ok db2 ∧
        rowsWithKey db2 (keyOf e) = [e] ∧
        (∀ k, k ≠ keyOf e → rowsWithKey db2 k = rowsWithKey db k) ∧
        ((db.map keyOf).Nodup → (db2.map keyOf).Nodup) ∧
        add_event now db2 e = Except.ok db2 := by
  intro now db e h
  refine ⟨upsert db e, add_event_ok h, rowsWithKey_upsert_same db e,
    fun k hk => rowsWithKey_upsert_other db e hk, upsert_keys_nodup db e, ?_⟩
  rw [add_event_ok h, upsert_idem]

/-- Witness for C2: adding `evFinal` on top of a store holding `evFlash`. -/
theorem add_event_upsert_idempotent_witness :
    ∃ db2, add_event 100 [evFlash] evFinal = Except.ok db2 ∧
      rowsWithKey db2 (keyOf evFinal) = [evFinal] ∧
      (∀ k, k ≠ keyOf evFinal → rowsWithKey db2 k = rowsWithKey [evFlash] k) ∧
      (([evFlash].map keyOf).Nodup → (db2.map keyOf).Nodup) ∧
      add_event 100 db2 evFinal = Except.ok db2 :=
  add_event_upsert_idempotent 100 [evFlash] evFinal (by decide)

/-- C3: after a successful `add` of a non-future event, fetching its series
as of its release timestamp returns exactly one record equal to it, while
fetching as of one second earlier does not return it; and in general every
record fetched as of `t` has release timestamp at most `t`. -/
theorem add_then_fetch_point_in_time :
    ∀ (now : ℤ) (db : List Event) (e : Event), e.release_time_utc ≤ now →
      ∃ db2, add_event now db e = Except.ok db2 ∧
        (fetch_events db2 e.series_id e.release_time_utc).count e = 1 ∧
        e ∉ fetch_events db2 e.series_id (e.release_time_utc - 1) ∧
        ∀ (db0 : List Event) (sid : String) (t : ℤ) (x : Event),
          x ∈ fetch_events db0 sid t → x.release_time_utc ≤ t := by
  intro now db e h
  refine ⟨upsert db e, add_event_ok h, ?_, ?_, ?_⟩
  · unfold fetch_events
    rw [(List.perm_insertionSort fetchLE _).count_eq]
    unfold upsert
    rw [List.filter_append, List.count_append]
    have hnot : e ∉ List.filter
        (fun x => decide (x.series_id = e.series_id ∧
          x.release_time_utc ≤ e.release_time_utc))
        (List.filter (fun x => decide (keyOf x ≠ keyOf e)) db) := by
      intro hm
      have hm2 := List.mem_of_mem_filter hm
      rw [List.mem_filter] at hm2
      simp at hm2
    rw [List.count_eq_zero.mpr hnot]
    simp
  · intro hm
    rw [mem_fetch_events] at hm
    omega
  · intro db0 sid t x hx
    exact (mem_fetch_events.mp hx).2.2

/-- Witness for C3: adding `evFlash` to the empty store at time 100. -/
theorem add_then_fetch_point_in_time_witness :
    ∃ db2, add_event 100 [] evFlash = Except.ok db2 ∧
      (fetch_events db2 evFlash.series_id evFlash.release_time_utc).count evFlash = 1 ∧
      evFlash ∉ fetch_events db2 evFlash.series_id (evFlash.release_time_utc - 1) ∧
      ∀ (db0 : List Event) (sid : String) (t : ℤ) (x : Event),
        x ∈ fetch_events db0 sid t → x.release_time_utc ≤ t :=
  add_then_fetch_point_in_time 100 [] evFlash (by decide)

/-- C4: the claim says fetch orders rows within a release date by vintage
with flash before preliminary before final, so the last entry per date is
the most recent vintage.  In fact `ORDER BY vintage ASC` compares the
vintage strings alphabetically: `"final" < "flash"`, so the final vintage is
returned before the flash vintage of the same date even though it was
released later, and the last matching entry is not the most recent
vintage. -/
theorem fetch_events_vintage_order_cex :
    fetch_events [evFlash, evFinal] "cpi" 100 = [evFinal, evFlash] ∧
    evFlash.release_date = evFinal.release_date ∧
    evFlash.vintage = "flash" ∧ evFinal.vintage = "final" ∧
    evFlash.release_time_utc < evFinal.release_time_utc := by
  refine ⟨by decide, by decide, rfl, rfl, by decide⟩

/-- C4 (amended): the fetched sequence contains exactly the matching rows
and is sorted by release date ascending and, within a release date, by the
vintage string in lexicographic (alphabetical) order — an order in which
`"final" < "flash" < "prelim"`, which is not the chronological revision
order flash, preliminary, final. -/
theorem fetch_events_sorted_lex :
    (∀ (db : List Event) (sid : String) (t : ℤ),
      List.Sorted fetchLE (fetch_events db sid t)) ∧
    (∀ (db : List Event) (sid : String) (t : ℤ),
      (fetch_events db sid t).Perm
        (db.filter (fun x => decide (x.series_id = sid ∧ x.release_time_utc ≤ t)))) ∧
    ("final" : String).data < ("flash" : String).data ∧
    ("flash" : String).data < ("prelim" : String).data :=
  ⟨fun _ _ _ => List.sorted_insertionSort _ _,
    fun _ _ _ => List.perm_insertionSort _ _, by decide, by decide⟩

/-- C9: the claim says `surprise` in relative mode returns
`(actual / consensus) − 1` whenever a consensus is present; for the concrete
event whose consensus is present but zero, the division raises
`ZeroDivisionError` instead of returning a value. -/
theorem surprise_zero_consensus_cex :
    evZeroConsensus.consensus = some 0 ∧
    surprise evZeroConsensus "relative" = Except.error PyError.zeroDivision := by
  exact ⟨rfl, rfl⟩

/-- C9 (amended): `surprise` in absolute mode returns `actual − consensus`
whenever a consensus is present; in relative mode it returns
`(actual / consensus) − 1` whenever a consensus is present and nonzero, and
raises `ZeroDivisionError` when the present consensus is zero; when the
consensus is absent it returns 0 in every mode and never raises. -/
theorem surprise_modes :
    ∀ (ev : Event),
      (ev.consensus = none → ∀ d, surprise ev d = Except.ok 0) ∧
      (∀ c : ℚ, ev.consensus = some c →
        surprise ev "absolute" = Except.ok (ev.actual - c) ∧
        (c ≠ 0 → surprise ev "relative" = Except.ok (ev.actual / c - 1)) ∧
        (c = 0 → surprise ev "relative" = Except.error PyError.zeroDivision)) := by
  intro ev
  constructor
  · intro h d
    unfold surprise
    rw [h]
  · intro c hc
    unfold surprise
    rw [hc]
    dsimp only
    refine ⟨?_, fun h0 => ?_, fun h0 => ?_⟩
    · rw [if_neg (by decide : ¬ ("absolute" : String) = "relative")]
    · rw [if_pos rfl, if_neg h0]
    · rw [if_pos rfl, if_pos h0]

/-- Witness for C9: the three modes evaluated at the concrete rows. -/
theorem surprise_modes_witness :
    surprise evNoConsensus "relative" = Except.ok 0 ∧
    surprise evFlash "absolute" = Except.ok (evFlash.actual - 2) ∧
    surprise evFlash "relative" = Except.ok (evFlash.actual / 2 - 1) :=
  ⟨(surprise_modes evNoConsensus).1 rfl "relative",
    ((surprise_modes evFlash).2 2 rfl).1,
    ((surprise_modes evFlash).2 2 rfl).2.1 (by norm_num)⟩

theorem digitChar_ne_percent (d : ℕ) : digitChar d ≠ '%' := by
  unfold digitChar
  split_ifs <;> decide

theorem percent_not_mem_natRepr (n : ℕ) : '%' ∉ natRepr n := by
  unfold natRepr
  split_ifs with h
  · decide
  · intro hm
    rw [List.mem_reverse, List.mem_map] at hm
    obtain ⟨d, _, hd⟩ := hm
    exact digitChar_ne_percent d hd

theorem percent_not_mem_floatStr (q : ℚ) : '%' ∉ floatStr q := by
  intro hm
  unfold floatStr at hm
  simp only [List.mem_append] at hm
  rcases hm with ((h | h) | h) | h
  · split_ifs at h
    · rw [List.mem_singleton] at h
      exact absurd h (by decide)
    · exact List.not_mem_nil _ h
  · exact percent_not_mem_natRepr _ h
  · rw [List.mem_singleton] at h
    exact absurd h (by decide)
  · exact percent_not_mem_natRepr _ h

theorem surprise_branch_abs (ev : Event) :
    (if '%' ∈ floatStr ev.actual then surprise ev "relative"
      else surprise ev "absolute") = Except.ok (surpriseAbs ev) := by
  rw [if_neg (percent_not_mem_floatStr ev.actual)]
  unfold surprise surpriseAbs
  cases hc : ev.consensus with
  | none => rfl
  | some c =>
      dsimp only
      rw [if_neg (by decide : ¬ ("absolute" : String) = "relative")]

theorem categoryStep_eq (now : ℤ) (st : ScoreState) (p : Event × String) :
    categoryStep now st p = Except.ok (categoryStepAbs now st p) := by
  unfold categoryStep categoryStepAbs
  rw [surprise_branch_abs]

theorem foldlM_categoryStep (now : ℤ) (evs : List (Event × String)) (st : ScoreState) :
    List.foldlM (categoryStep now) st evs =
      Except.ok (List.foldl (categoryStepAbs now) st evs) := by
  induction evs generalizing st with
  | nil => rfl
  | cons p rest ih =>
      rw [List.foldlM_cons, categoryStep_eq]
      exact ih (categoryStepAbs now st p)

theorem category_score_eq_abs (now : ℤ) (events : List (Event × String)) :
    category_score now events = Except.ok (category_score_abs now events) := by
  unfold category_score category_score_abs
  rw [foldlM_categoryStep]
  by_cases hw : (List.foldl (categoryStepAbs now) ⟨[], []⟩ events).weights = []
  · simp [hw]
  · simp [hw]

theorem impactWeight_pos (s : String) : 0 < impactWeight s := by
  unfold impactWeight
  split_ifs <;> norm_num

theorem halfLife_pos (s : String) : 0 < halfLife s := by
  unfold halfLife
  split_ifs <;> norm_num

/-- C7: for fixed frequency and impact class the decay weight
`0.5^(days_elapsed / half_life) × impact_multiplier` is strictly decreasing
in the number of elapsed whole days, and for a release not in the future it
always lies in `(0, impact_multiplier]`. -/
theorem decay_weight_strict_decay_bounds :
    ∀ (freq impact : String) (now rt rt2 : ℤ),
      (daysElapsed now rt < daysElapsed now rt2 →
        decay_weight now rt2 freq impact < decay_weight now rt freq impact) ∧
      (rt ≤ now →
        0 < decay_weight now rt freq impact ∧
        decay_weight now rt freq impact ≤ ((impactWeight impact : ℚ) : ℝ)) := by
  intro freq impact now rt rt2
  have himp : (0 : ℝ) < ((impactWeight impact : ℚ) : ℝ) := by
    exact_mod_cast impactWeight_pos impact
  have hhl : (0 : ℝ) < ((halfLife freq : ℕ) : ℝ) := by
    exact_mod_cast halfLife_pos freq
  constructor
  · intro hd
    unfold decay_weight
    apply mul_lt_mul_of_pos_right _ himp
    apply Real.rpow_lt_rpow_of_exponent_gt (by norm_num) (by norm_num)
    rw [div_lt_div_iff_of_pos_right hhl]
    exact_mod_cast hd
  · intro hle
    have hd0 : (0 : ℤ) ≤ daysElapsed now rt := Int.fdiv_nonneg (by omega) (by norm_num)
    have hx0 : (0 : ℝ) ≤ (daysElapsed now rt : ℝ) / ((halfLife freq : ℕ) : ℝ) :=
      div_nonneg (by exact_mod_cast hd0) hhl.le
    unfold decay_weight
    refine ⟨mul_pos (Real.rpow_pos_of_pos (by norm_num) _) himp, ?_⟩
    calc ((1 : ℝ)/2) ^ ((daysElapsed now rt : ℝ) / ((halfLife freq : ℕ) : ℝ)) *
        ((impactWeight impact : ℚ) : ℝ)
        ≤ 1 * ((impactWeight impact : ℚ) : ℝ) :=
          mul_le_mul_of_nonneg_right
            (Real.rpow_le_one (by norm_num) (by norm_num) hx0) himp.le
      _ = ((impactWeight impact : ℚ) : ℝ) := one_mul _

/-- Witness for C7: frequency class `"m"`, impact class `"high"`, release
times 86400 (0 whole days elapsed at time 86400) and 0 (1 whole day
elapsed). -/
theorem decay_weight_strict_decay_bounds_witness :
    decay_weight 86400 0 "m" "high" < decay_weight 86400 86400 "m" "high" ∧
    (0 < decay_weight 86400 0 "m" "high" ∧
      decay_weight 86400 0 "m" "high" ≤ ((impactWeight "high" : ℚ) : ℝ)) :=
  ⟨(decay_weight_strict_decay_bounds "m" "high" 86400 86400 0).1 (by decide),
    (decay_weight_strict_decay_bounds "m" "high" 86400 0 0).2 (by decide)⟩

theorem point_from_z_bounds (z : ℝ) : -2 ≤ point_from_z z ∧ point_from_z z ≤ 2 := by
  unfold point_from_z
  split_ifs with h
  · norm_num
  · exact ⟨le_max_left _ _, max_le (by norm_num) (min_le_left _ _)⟩

theorem category_score_abs_bounds (now : ℤ) (events : List (Event × String)) :
    -2 ≤ category_score_abs now events ∧ category_score_abs now events ≤ 2 := by
  unfold category_score_abs
  dsimp only
  by_cases hw : (List.foldl (categoryStepAbs now) ⟨[], []⟩ events).weights = []
  · rw [if_pos hw]
    norm_num
  · rw [if_neg hw]
    exact point_from_z_bounds _

/-- C8: for every finite input list (including the empty list)
`category_score` returns a value — never an error — lying in `[−2, 2]`, and
`point_from_z` maps every sub-threshold raw score (`|raw| < 0.25`) to 0. -/
theorem category_score_bounded :
    (∀ (now : ℤ) (events : List (Event × String)),
      ∃ r, category_score now events = Except.ok r ∧ -2 ≤ r ∧ r ≤ 2) ∧
    (∀ z : ℝ, |z| < 1/4 → point_from_z z = 0) := by
  constructor
  · intro now events
    exact ⟨category_score_abs now events, category_score_eq_abs now events,
      (category_score_abs_bounds now events).1, (category_score_abs_bounds now events).2⟩
  · intro z hz
    unfold point_from_z
    rw [if_pos hz]

/-- Witness for C8: the empty event list, and the dead-zone at raw score
0. -/
theorem category_score_bounded_witness :
    (∃ r, category_score 0 [] = Except.ok r ∧ -2 ≤ r ∧ r ≤ 2) ∧ point_from_z 0 = 0 :=
  ⟨category_score_bounded.1 0 [], category_score_bounded.2 0 (by norm_num)⟩

/-- C10: the relative-surprise branch of `category_score` is unreachable —
the decimal string representation of a float never contains the character
`'%'`, so mode selection always chooses absolute mode, and `category_score`
coincides with the aggregator that computes every surprise as
`actual − consensus` (or 0 without consensus), never raising an error. -/
theorem category_score_relative_unreachable :
    (∀ q : ℚ, '%' ∉ floatStr q) ∧
    (∀ (now : ℤ) (events : List (Event × String)),
      category_score now events = Except.ok (category_score_abs now events)) :=
  ⟨percent_not_mem_floatStr, category_score_eq_abs⟩
